import Mathlib

/-!
Shallow embedding of `KeyStorage.cpp` (credential-bound key storage engine).

Byte strings (`std::string` used as byte buffers) are modelled as `List Char`.
External collaborators (SHA-512, scrypt, AES-256-GCM, the hardware keymaster
service, the property store and the two external processes) are modelled as
explicit parameters: a `Crypto` structure of pure functions, a `KmModel`
structure for the hardware key-management service, an `Env` for configuration
and external process outcomes, and a `Rand` record carrying the values the
random source returns.  AES-GCM is decomposed, as the EVP streaming API is,
into a CTR-style body transform (`gcmCtr`, applied by Encrypt/DecryptUpdate,
which produces output *before* the tag is checked) and a tag function
(`gcmTag`, checked only by DecryptFinal / keymaster `finish`).
-/

namespace KeyStorageModel

/-- Byte strings / `std::string`. -/
abbrev Str := List Char

/-- Source: `std::string::resize(n)`: truncate to `n`, or pad with NUL bytes. -/
def resizeStr (s : Str) (n : Nat) : Str :=
  s.take n ++ List.replicate (n - s.length) '\x00'

/-- All but the last `n` elements (used to split `body ‖ mac`). -/
def dropLastN (l : Str) (n : Nat) : Str :=
  l.take (l.length - n)

/-- The last `n` elements. -/
def lastN (l : Str) (n : Nat) : Str :=
  l.drop (l.length - n)

-- Constants from KeyStorage.cpp
def AES_KEY_BYTES : Nat := 32
def GCM_NONCE_BYTES : Nat := 12
def GCM_MAC_BYTES : Nat := 16
def SALT_BYTES : Nat := 16
def SECDISCARDABLE_BYTES : Nat := 16384
def STRETCHED_BYTES : Nat := 64
/-- Source: `sizeof(hw_auth_token_t)`: 1 + 8 + 8 + 8 + 4 + 8 + 32 packed bytes. -/
def HW_AUTH_TOKEN_BYTES : Nat := 69
def SHA512_CBLOCK : Nat := 128

def kCurrentVersion : Str := "1".toList
def kStretch_none : Str := "none".toList
def kStretch_nopassword : Str := "nopassword".toList
def kStretchPrefix_scrypt : Str := "scrypt ".toList
def kHashPrefix_secdiscardable : Str := "Android secdiscardable SHA512".toList
def kHashPrefix_keygen : Str := "Android key wrapping key generation SHA512".toList

/--
`std::equal(kStretchPrefix_scrypt.begin(), kStretchPrefix_scrypt.end(),
stretching.begin())` as the C++ runtime actually behaves: the second range is
walked without a bounds check, and reading one past the end of a
`std::string` yields its NUL terminator.
-/
def stdEqualD : Str → Str → Bool
  | [], _ => true
  | c :: pre, [] => c == '\x00' && stdEqualD pre []
  | c :: pre, x :: s => c == x && stdEqualD pre s

/--
The same comparison under a total embedding where every element access into
the second range is bounds-checked: `none` means the loop dereferenced an
iterator past the end of the second string (out-of-bounds read).
-/
def stdEqualChecked : Str → Str → Option Bool
  | [], _ => some true
  | _ :: _, [] => none
  | c :: pre, x :: s => if c == x then stdEqualChecked pre s else some false

/-- External cryptographic primitives, abstracted as pure functions. -/
structure Crypto where
  /-- SHA-512 over the whole prefixed message (`SHA512_Update` calls). -/
  sha512 : Str → Str
  /-- Source: `crypto_scrypt secret salt N r p`; `none` models a nonzero return. -/
  scrypt : Str → Str → Nat → Nat → Nat → Option Str
  /-- Source: `parse_scrypt_parameters` (ScryptParameters.cpp, outside src/). -/
  parseScrypt : Str → Option (Nat × Nat × Nat)
  /-- CTR-layer body transform of AES-256-GCM: key, nonce, data.  Applied by
  `EVP_EncryptUpdate` / `EVP_DecryptUpdate` and by the keymaster `update`. -/
  gcmCtr : Str → Str → Str → Str
  /-- GCM authentication tag over the ciphertext body: key, nonce, body. -/
  gcmTag : Str → Str → Str → Str

/-- Source: `hashWithPrefix`: the prefix is resized to one SHA-512 block, then hashed
together with the message. -/
def hashWithPrefix (C : Crypto) (pre tohash : Str) : Str :=
  C.sha512 (resizeStr pre SHA512_CBLOCK ++ tohash)

/--
Credential bundle (KeyStorage.h, not under src/).
Modelled from the spec: `secret` (empty means "no password"), `token`
(empty means "no token required"); `hwBound` is the spec's "policy dictates
hardware-bound storage even without a token".
-/
structure KeyAuthentication where
  token : Str
  secret : Str
  hwBound : Bool
  deriving DecidableEq, Repr

/-- Modelled from the spec: `usesKeymaster()` is true iff `token` is
non-empty or policy dictates hardware-bound storage even without a token. -/
def KeyAuthentication.usesKeymaster (a : KeyAuthentication) : Bool :=
  a.token ≠ [] || a.hwBound

/--
Modelled from the spec: an idealized hardware key blob.  The hardware
service binds the generated key to the application id and the token's user
id; `keyId` names the hardware-internal key material (preserved across
upgrades) and `gen` is the blob format generation (bumped by `upgradeKey`).
-/
structure KmBlob where
  appId : Str
  needsAuth : Bool
  userId : Nat
  keyId : Nat
  gen : Nat
  deriving DecidableEq, Repr

/-- Contents of a file in the key directory. -/
inductive Val where
  | str (s : Str)
  | blob (b : KmBlob)
  deriving DecidableEq, Repr

/-- The per-key storage directory: one `Option Val` per fixed file name. -/
structure Dir where
  version : Option Val := none
  stretching : Option Val := none
  salt : Option Val := none
  secdiscardable : Option Val := none
  keymaster_key_blob : Option Val := none
  keymaster_key_blob_upgraded : Option Val := none
  encrypted_key : Option Val := none
  deriving DecidableEq, Repr

inductive FileName where
  | version | stretching | salt | secdiscardable
  | keymaster_key_blob | keymaster_key_blob_upgraded | encrypted_key
  deriving DecidableEq, Repr

def Dir.get (d : Dir) : FileName → Option Val
  | .version => d.version
  | .stretching => d.stretching
  | .salt => d.salt
  | .secdiscardable => d.secdiscardable
  | .keymaster_key_blob => d.keymaster_key_blob
  | .keymaster_key_blob_upgraded => d.keymaster_key_blob_upgraded
  | .encrypted_key => d.encrypted_key

def Dir.set (d : Dir) : FileName → Option Val → Dir
  | .version, v => { d with version := v }
  | .stretching, v => { d with stretching := v }
  | .salt, v => { d with salt := v }
  | .secdiscardable, v => { d with secdiscardable := v }
  | .keymaster_key_blob, v => { d with keymaster_key_blob := v }
  | .keymaster_key_blob_upgraded, v => { d with keymaster_key_blob_upgraded := v }
  | .encrypted_key, v => { d with encrypted_key := v }

/-- Source: `readFileToString` of a string-valued file. -/
def readStrF (d : Dir) (n : FileName) : Option Str :=
  match d.get n with
  | some (.str s) => some s
  | _ => none

/-- Source: `writeStringToFile`. -/
def writeF (d : Dir) (n : FileName) (v : Val) : Dir :=
  d.set n (some v)

/-- System configuration and external process outcomes. -/
structure Env where
  /-- Source: `property_get(SCRYPT_PROP, ..., SCRYPT_DEFAULTS)`. -/
  scryptParams : Str
  /-- exit status of the external `secdiscard` utility. -/
  secdiscardOk : Bool
  /-- exit status of the external `rm -rf` utility. -/
  rmOk : Bool

/-- Values returned by the secure random source during one `storeKey`. -/
structure Rand where
  secdiscardable : Str
  salt : Str
  /-- the 12 random bytes `encryptWithoutKeymaster` reads into the nonce. -/
  swNonce : Str
  /-- name of the fresh hardware-internal key minted by `generateKey`. -/
  kmKeyId : Nat

/--
Modelled from the spec: the hardware key-management service (generate-key,
begin-operation, update, finish, upgrade-key, delete-key), idealized as a
deterministic structure.  A blob whose generation is behind `curGen`
triggers the "key requires upgrade" response; `upgradeKey` bumps the
generation by one, so a blob `b` receives exactly `curGen - b.gen`
consecutive upgrade offers.
-/
structure KmModel where
  /-- Source: `Keymaster keymaster; if (!keymaster) ...` availability. -/
  avail : Bool
  curGen : Nat
  /-- hardware-internal AES key for a given `keyId` (never leaves the hw). -/
  keyOf : Nat → Str
  /-- the nonce the service generates for an ENCRYPT operation. -/
  nonceOf : KmBlob → Str
  /-- user secure id extracted from a `hw_auth_token_t` blob. -/
  tokenUser : Str → Nat
  /-- whether `upgradeKey` requests succeed. -/
  upgradeOk : Bool
  /-- whether `deleteKey` requests succeed for a given blob. -/
  deleteOk : KmBlob → Bool

inductive KeyPurpose where
  | encrypt | decrypt
  deriving DecidableEq, Repr

/-- Parameters assembled from `beginParams` plus operation parameters:
the application id, the auth token (empty = absent) and, for decryption,
the stored nonce. -/
structure OpParams where
  appId : Str
  token : Str
  nonce : Option Str
  deriving DecidableEq, Repr

/-- An open operation handle: the hardware AES key and the op nonce. -/
structure KmOp where
  key : Str
  nonce : Str
  deriving DecidableEq, Repr

inductive BeginRes where
  | ok (op : KmOp)
  | upgradeRequired
  | error
  deriving DecidableEq, Repr

/-- Modelled from the spec: `keymaster.begin` checks the blob format
generation, then that the supplied application id matches the one the key
was bound to, then the auth token; for DECRYPT the nonce must be supplied
as an operation parameter. -/
def KmModel.beginOp (km : KmModel) (purpose : KeyPurpose) (b : KmBlob)
    (p : OpParams) : BeginRes :=
  if b.gen < km.curGen then .upgradeRequired
  else if p.appId ≠ b.appId then .error
  else if b.needsAuth && (p.token = [] || km.tokenUser p.token ≠ b.userId) then .error
  else match purpose with
    | .encrypt => .ok ⟨km.keyOf b.keyId, km.nonceOf b⟩
    | .decrypt =>
      match p.nonce with
      | some n => .ok ⟨km.keyOf b.keyId, n⟩
      | none => .error

/-- Modelled from the spec: `upgradeKey` re-wraps the same key material in
the next blob format generation. -/
def KmModel.upgradeKey (km : KmModel) (b : KmBlob) : Option KmBlob :=
  if km.upgradeOk then some { b with gen := b.gen + 1 } else none

/-- Modelled from the spec: `generateKey` binds a fresh key to the given
parameters at the current blob generation. -/
def KmModel.genBlob (km : KmModel) (appId : Str) (needsAuth : Bool)
    (userId : Nat) (keyId : Nat) : KmBlob :=
  ⟨appId, needsAuth, userId, keyId, km.curGen⟩

/-- Source: `generateKeymasterKey`: AES-256-GCM key bound to `appId`; with no token
the key needs no auth, otherwise the token must be exactly
`sizeof(hw_auth_token_t)` bytes and the key is bound to its user id. -/
def generateKeymasterKey (km : KmModel) (auth : KeyAuthentication)
    (appId : Str) (keyId : Nat) : Option KmBlob :=
  if auth.token = [] then
    some (km.genBlob appId false 0 keyId)
  else if auth.token.length ≠ HW_AUTH_TOKEN_BYTES then
    none
  else
    some (km.genBlob appId true (km.tokenUser auth.token) keyId)

/-- Source: `beginParams(auth, appId)`: application id plus the auth token when
present; operation-level parameters (the nonce) are merged in by callers. -/
def beginParams (auth : KeyAuthentication) (appId : Str) : OpParams :=
  ⟨appId, auth.token, none⟩

/-- Outcome of the `begin` retry loop: an operation handle or a failure,
together with the directory state after any upgrade file dance. -/
inductive BeginOut where
  | ok (op : KmOp) (d : Dir)
  | fail (d : Dir)
  deriving DecidableEq, Repr

/--
The body of `begin`'s `for (;;)` loop, with explicit fuel (`none` = fuel
exhausted).  On KEY_REQUIRES_UPGRADE: request an upgraded blob, write it to
the temporary name, rename it over the original, best-effort delete the old
hardware key (result ignored), and retry with the new blob.
-/
def beginLoop (km : KmModel) (purpose : KeyPurpose) (keyParams : OpParams)
    (p : OpParams) : Dir → KmBlob → Nat → Option BeginOut
  | _, _, 0 => none
  | d, kmKey, fuel + 1 =>
    match km.beginOp purpose kmKey p with
    | .ok op => some (.ok op d)
    | .error => some (.fail d)
    | .upgradeRequired =>
      match km.upgradeKey kmKey with
      | none => some (.fail d)
      | some newKey =>
        let d1 := writeF d .keymaster_key_blob_upgraded (.blob newKey)
        let d2 := (writeF d1 .keymaster_key_blob (.blob newKey)).set
          .keymaster_key_blob_upgraded none
        beginLoop km purpose keyParams p d2 newKey fuel

/-- Source: `begin`: read the keymaster key blob, then run the upgrade-retry loop.
A blob can be at most `curGen` generations behind, so fuel `curGen + 1`
always suffices (`beginLoop_fuel_sufficient`).  An unreadable or non-blob
file is a failure. -/
def begin (km : KmModel) (purpose : KeyPurpose) (keyParams opParams : OpParams)
    (d : Dir) : BeginOut :=
  match d.get .keymaster_key_blob with
  | some (.blob b) =>
    match beginLoop km purpose keyParams
        { keyParams with nonce := opParams.nonce } d b (km.curGen + 1) with
    | some r => r
    | none => .fail d
  | _ => .fail d

/-- Source: `encryptWithKeymasterKey`: begin ENCRYPT, take the generated nonce
(checked to be 12 bytes), stream the message, finish and check the 16-byte
tag; ciphertext is `nonce ‖ body ‖ mac`. -/
def encryptWithKeymasterKey (C : Crypto) (km : KmModel) (d : Dir)
    (keyParams : OpParams) (message : Str) : Option (Str × Dir) :=
  match begin km .encrypt keyParams { keyParams with nonce := none } d with
  | .fail _ => none
  | .ok op d' =>
    if op.nonce.length ≠ GCM_NONCE_BYTES then none
    else
      let body := C.gcmCtr op.key op.nonce message
      let mac := C.gcmTag op.key op.nonce body
      if mac.length ≠ GCM_MAC_BYTES then none
      else some (op.nonce ++ body ++ mac, d')

/-- Source: `decryptWithKeymasterKey`: split `nonce ‖ body ‖ mac`, begin DECRYPT
supplying the nonce, stream `body ‖ mac` (writing the decrypted bytes into
the caller's out buffer), and let `finish` verify the tag.  Returns the
success flag and the out buffer's final contents. -/
def decryptWithKeymasterKey (C : Crypto) (km : KmModel) (d : Dir)
    (keyParams : OpParams) (ciphertext : Str) (out0 : Str) : Bool × Str :=
  let nonce := ciphertext.take GCM_NONCE_BYTES
  let bodyAndMac := ciphertext.drop GCM_NONCE_BYTES
  match begin km .decrypt keyParams { keyParams with nonce := some nonce } d with
  | .fail _ => (false, out0)
  | .ok op _ =>
    let body := dropLastN bodyAndMac GCM_MAC_BYTES
    let out1 := C.gcmCtr op.key op.nonce body
    if C.gcmTag op.key op.nonce body = lastN bodyAndMac GCM_MAC_BYTES then
      (true, out1)
    else
      (false, out1)

/-- Source: `getStretching`: policy for choosing the stretching spec at store time. -/
def getStretching (env : Env) (auth : KeyAuthentication) : Str :=
  if !auth.usesKeymaster then
    kStretch_none
  else if auth.secret = [] then
    kStretch_nopassword
  else
    kStretchPrefix_scrypt ++ env.scryptParams

/-- Source: `stretchingNeedsSalt`. -/
def stretchingNeedsSalt (stretching : Str) : Bool :=
  stretching ≠ kStretch_nopassword && stretching ≠ kStretch_none

/-- Source: `stretchSecret`: "nopassword" clears the output (warning only if a
secret is present — execution continues); "none" passes the secret
through; a string matching the scrypt tag parses the cost parameters and
runs scrypt into a 64-byte buffer; anything else is a hard error. -/
def stretchSecret (C : Crypto) (stretching secret salt : Str) : Option Str :=
  if stretching = kStretch_nopassword then
    some []
  else if stretching = kStretch_none then
    some secret
  else if stdEqualD kStretchPrefix_scrypt stretching then
    match C.parseScrypt (stretching.drop kStretchPrefix_scrypt.length) with
    | none => none
    | some (nf, rf, pf) =>
      match C.scrypt secret salt (2 ^ nf) (2 ^ rf) (2 ^ pf) with
      | none => none
      | some out => some (resizeStr out STRETCHED_BYTES)
  else
    none

/-- Source: `generateAppId`: domain-separated hash of the secdiscardable blob,
concatenated with the stretched secret. -/
def generateAppId (C : Crypto) (auth : KeyAuthentication) (stretching salt
    secdiscardable : Str) : Option Str :=
  match stretchSecret C stretching auth.secret salt with
  | none => none
  | some stretched =>
    some (hashWithPrefix C kHashPrefix_secdiscardable secdiscardable ++ stretched)

/-- Source: `encryptWithoutKeymaster`: derive a 32-byte key from the appId, use the
12 random bytes as nonce, GCM-encrypt (the code checks that Update consumed
the whole plaintext) and append the 16-byte tag fetched by GET_TAG. -/
def encryptWithoutKeymaster (C : Crypto) (rnd : Rand) (preKey plaintext : Str) :
    Option Str :=
  let key := resizeStr (hashWithPrefix C kHashPrefix_keygen preKey) AES_KEY_BYTES
  let nonce := rnd.swNonce
  let body := C.gcmCtr key nonce plaintext
  if body.length ≠ plaintext.length then none
  else some (nonce ++ body ++ resizeStr (C.gcmTag key nonce body) GCM_MAC_BYTES)

/-- Source: `decryptWithoutKeymaster`: size-check, derive the key, resize the
caller's out buffer, let DecryptUpdate write the decrypted bytes into it,
and only then let DecryptFinal verify the tag.  Returns the success flag
and the out buffer's final contents. -/
def decryptWithoutKeymaster (C : Crypto) (preKey ciphertext : Str)
    (out0 : Str) : Bool × Str :=
  if ciphertext.length < GCM_NONCE_BYTES + GCM_MAC_BYTES then
    (false, out0)
  else
    let key := resizeStr (hashWithPrefix C kHashPrefix_keygen preKey) AES_KEY_BYTES
    let nonce := ciphertext.take GCM_NONCE_BYTES
    let n := ciphertext.length - GCM_NONCE_BYTES - GCM_MAC_BYTES
    let body := (ciphertext.drop GCM_NONCE_BYTES).take n
    let out1 := C.gcmCtr key nonce body
    if out1.length ≠ n then
      (false, out1)
    else if C.gcmTag key nonce body = ciphertext.drop (GCM_NONCE_BYTES + n) then
      (true, out1)
    else
      (false, out1)

/-- Source: `storeKey`: create the directory exclusively, write version,
secdiscardable blob, stretching spec, salt when needed, compute the appId,
then wrap the key via the keymaster or the software cipher and persist the
ciphertext.  `w = some _` models an already-existing directory (mkdir
fails). -/
def storeKey (C : Crypto) (km : KmModel) (env : Env) (rnd : Rand)
    (auth : KeyAuthentication) (key : Str) (w : Option Dir) : Option Dir :=
  match w with
  | some _ => none
  | none =>
    let d1 := writeF {} .version (.str kCurrentVersion)
    let d2 := writeF d1 .secdiscardable (.str rnd.secdiscardable)
    let stretching := getStretching env auth
    let d3 := writeF d2 .stretching (.str stretching)
    let salt : Str := if stretchingNeedsSalt stretching then rnd.salt else []
    let d4 := if stretchingNeedsSalt stretching then
        writeF d3 .salt (.str rnd.salt)
      else d3
    match generateAppId C auth stretching salt rnd.secdiscardable with
    | none => none
    | some appId =>
      if auth.usesKeymaster then
        if !km.avail then none
        else
          match generateKeymasterKey km auth appId rnd.kmKeyId with
          | none => none
          | some b =>
            let d5 := writeF d4 .keymaster_key_blob (.blob b)
            match encryptWithKeymasterKey C km d5 (beginParams auth appId) key with
            | none => none
            | some (ct, d6) => some (writeF d6 .encrypted_key (.str ct))
      else
        match encryptWithoutKeymaster C rnd appId key with
        | none => none
        | some ct => some (writeF d4 .encrypted_key (.str ct))

/-- Source: `retrieveKey` with the C++ out-parameter made explicit: returns the
success flag and the contents of the caller's `key` buffer after the call
(initially `out0`). -/
def retrieveKeyImpl (C : Crypto) (km : KmModel) (d : Dir)
    (auth : KeyAuthentication) (out0 : Str) : Bool × Str :=
  match readStrF d .version with
  | none => (false, out0)
  | some version =>
    if version ≠ kCurrentVersion then (false, out0)
    else
      match readStrF d .secdiscardable with
      | none => (false, out0)
      | some secdiscardable =>
        match readStrF d .stretching with
        | none => (false, out0)
        | some stretching =>
          match (if stretchingNeedsSalt stretching then
              readStrF d .salt else some []) with
          | none => (false, out0)
          | some salt =>
            match generateAppId C auth stretching salt secdiscardable with
            | none => (false, out0)
            | some appId =>
              match readStrF d .encrypted_key with
              | none => (false, out0)
              | some encryptedMessage =>
                if auth.usesKeymaster then
                  if !km.avail then (false, out0)
                  else
                    decryptWithKeymasterKey C km d (beginParams auth appId)
                      encryptedMessage out0
                else
                  decryptWithoutKeymaster C appId encryptedMessage out0

/-- Source: `retrieveKey` as seen through its success channel: `some key` on
success, `none` on failure. -/
def retrieveKey (C : Crypto) (km : KmModel) (d : Dir)
    (auth : KeyAuthentication) : Option Str :=
  let r := retrieveKeyImpl C km d auth []
  if r.1 then some r.2 else none

/-- Source: `deleteKey`: read the keymaster blob file and ask the hardware service
to delete the key (a non-blob file is rejected by the service). -/
def deleteKey (km : KmModel) (w : Option Dir) : Bool :=
  match w with
  | none => false
  | some d =>
    match d.get .keymaster_key_blob with
    | some (.blob b) => km.avail && km.deleteOk b
    | _ => false

/-- Source: `runSecdiscard`: invoke the external secure-overwrite utility on the
three sensitive files; on success their contents are destroyed in place. -/
def runSecdiscard (env : Env) (w : Option Dir) : Bool × Option Dir :=
  match w with
  | none => (env.secdiscardOk, none)
  | some d =>
    if env.secdiscardOk then
      let scrub : Option Val → Option Val := fun v => v.map fun _ => .str []
      (true, some { d with encrypted_key := scrub d.encrypted_key,
                           keymaster_key_blob := scrub d.keymaster_key_blob,
                           secdiscardable := scrub d.secdiscardable })
    else (false, some d)

/-- Source: `recursiveDeleteKey`: `rm -rf` the directory. -/
def recursiveDeleteKey (env : Env) (w : Option Dir) : Bool × Option Dir :=
  if env.rmOk then (true, none) else (false, w)

/-- Source: `destroyKey`: try each thing, even if previous things failed; the
overall result conjoins the three step outcomes. -/
def destroyKey (km : KmModel) (env : Env) (w : Option Dir) :
    Bool × Option Dir :=
  let r1 := deleteKey km w
  let r2 := runSecdiscard env w
  let r3 := recursiveDeleteKey env r2.2
  (r1 && r2.1 && r3.1, r3.2)

/-! ### Concrete instances used by witnesses and counterexamples -/

/-- A toy instantiation of the external crypto primitives, used to evaluate
the model on concrete inputs. -/
def toyCrypto : Crypto where
  sha512 := fun m => m.drop SHA512_CBLOCK
  scrypt := fun sec salt _ _ _ => some (sec ++ salt)
  parseScrypt := fun _ => some (1, 1, 1)
  gcmCtr := fun _ _ m => m
  gcmTag := fun key _ _ => resizeStr key GCM_MAC_BYTES

/-- A toy instantiation of the hardware key-management service. -/
def toyKm : KmModel where
  avail := true
  curGen := 0
  keyOf := fun i => 'K' :: List.replicate i 'i'
  nonceOf := fun _ => List.replicate GCM_NONCE_BYTES 'N'
  tokenUser := fun t => t.length
  upgradeOk := true
  deleteOk := fun _ => true

def toyEnv : Env := ⟨"13:3:1".toList, true, true⟩

def toyRnd : Rand :=
  ⟨"SECDISC".toList, "0123456789abcdef".toList, List.replicate GCM_NONCE_BYTES 'R', 7⟩

/-- A 69-byte (`sizeof(hw_auth_token_t)`) hardware auth token. -/
def toyToken : Str := List.replicate HW_AUTH_TOKEN_BYTES 't'

/-! ### Basic helper lemmas -/

theorem resizeStr_length (s : Str) (n : Nat) : (resizeStr s n).length = n := by
  simp [resizeStr]
  omega

theorem resizeStr_of_length {s : Str} {n : Nat} (h : s.length = n) :
    resizeStr s n = s := by
  simp [resizeStr, ← h, List.take_length]

theorem dropLastN_append {a b : Str} {n : Nat} (h : b.length = n) :
    dropLastN (a ++ b) n = a := by
  have : (a ++ b).length - n = a.length := by simp [List.length_append, h]
  rw [dropLastN, this, List.take_left]

theorem lastN_append {a b : Str} {n : Nat} (h : b.length = n) :
    lastN (a ++ b) n = b := by
  have : (a ++ b).length - n = a.length := by simp [List.length_append, h]
  rw [lastN, this, List.drop_left]

/-- For a pattern without NUL bytes, the unchecked `std::equal` run agrees
with the real prefix relation (a short second string reads the NUL
terminator, which then mismatches). -/
theorem stdEqualD_eq_true_iff {pre : Str} (hnn : '\x00' ∉ pre) (s : Str) :
    stdEqualD pre s = true ↔ pre <+: s := by
  induction pre generalizing s with
  | nil => simp [stdEqualD]
  | cons c pre ih =>
    have hc : c ≠ '\x00' := fun h => hnn (h ▸ List.mem_cons_self c pre)
    cases s with
    | nil =>
      simp only [stdEqualD, Bool.and_eq_true, beq_iff_eq]
      constructor
      · rintro ⟨h, -⟩; exact absurd h hc
      · intro h; exact absurd (List.IsPrefix.length_le h) (by simp)
    | cons x s =>
      simp only [stdEqualD, Bool.and_eq_true, beq_iff_eq,
        List.cons_prefix_cons]
      exact and_congr Iff.rfl (ih (fun h => hnn (List.mem_cons_of_mem c h)) s)

/-! ### Helper lemmas about the begin loop -/

/-- The directory a `BeginOut` carries. -/
def BeginOut.dir : BeginOut → Dir
  | .ok _ d => d
  | .fail d => d

/-- Fields of the directory not owned by the keymaster blob machinery. -/
def preservesNonKm (d d' : Dir) : Prop :=
  d'.version = d.version ∧ d'.stretching = d.stretching ∧ d'.salt = d.salt ∧
  d'.secdiscardable = d.secdiscardable ∧ d'.encrypted_key = d.encrypted_key

theorem preservesNonKm_refl (d : Dir) : preservesNonKm d d :=
  ⟨rfl, rfl, rfl, rfl, rfl⟩

/-- If the first service response is not "key requires upgrade", the loop
returns it immediately, for any positive fuel: nothing else is retried. -/
theorem beginLoop_no_upgrade {km : KmModel} {purpose : KeyPurpose}
    {kp p : OpParams} {d : Dir} {b : KmBlob}
    (h : km.beginOp purpose b p ≠ .upgradeRequired) (n : Nat) :
    beginLoop km purpose kp p d b (n + 1) =
      some (match km.beginOp purpose b p with
            | .ok op => .ok op d
            | _ => .fail d) := by
  unfold beginLoop
  cases hb : km.beginOp purpose b p with
  | ok op => rfl
  | upgradeRequired => exact absurd hb h
  | error => rfl

theorem beginLoop_preserves (km : KmModel) (purpose : KeyPurpose)
    (kp p : OpParams) : ∀ (fuel : Nat) (d : Dir) (b : KmBlob) (r : BeginOut),
    beginLoop km purpose kp p d b fuel = some r → preservesNonKm d r.dir := by
  intro fuel
  induction fuel with
  | zero => intro d b r h; exact absurd h (by simp [beginLoop])
  | succ n ih =>
    intro d b r h
    unfold beginLoop at h
    cases hb : km.beginOp purpose b p with
    | ok op =>
      rw [hb] at h
      cases h
      exact preservesNonKm_refl d
    | error =>
      rw [hb] at h
      cases h
      exact preservesNonKm_refl d
    | upgradeRequired =>
      rw [hb] at h
      cases hu : km.upgradeKey b with
      | none =>
        rw [hu] at h
        cases h
        exact preservesNonKm_refl d
      | some nk =>
        rw [hu] at h
        simp only at h
        have := ih _ _ _ h
        exact ⟨this.1, this.2.1, this.2.2.1, this.2.2.2.1, this.2.2.2.2⟩

theorem begin_preserves {km : KmModel} {purpose : KeyPurpose}
    {kp op : OpParams} {d : Dir} :
    preservesNonKm d (begin km purpose kp op d).dir := by
  unfold begin
  cases hb : d.get .keymaster_key_blob with
  | none => exact preservesNonKm_refl d
  | some v =>
    cases v with
    | str s => exact preservesNonKm_refl d
    | blob b =>
      cases hl : beginLoop km purpose kp { kp with nonce := op.nonce } d b
          (km.curGen + 1) with
      | none => simp only [hl]; exact preservesNonKm_refl d
      | some r => simp only [hl]; exact beginLoop_preserves km purpose _ _ _ _ _ _ hl

theorem encryptWithKeymasterKey_preserves {C : Crypto} {km : KmModel}
    {d : Dir} {kp : OpParams} {m ct : Str} {d' : Dir}
    (h : encryptWithKeymasterKey C km d kp m = some (ct, d')) :
    preservesNonKm d d' := by
  unfold encryptWithKeymasterKey at h
  split at h
  · exact absurd h (by simp)
  · rename_i op d2 heq
    split at h
    · exact absurd h (by simp)
    · simp only at h
      split at h
      · exact absurd h (by simp)
      · simp only [Option.some.injEq, Prod.mk.injEq] at h
        have hd : d2 = (begin km .encrypt kp { kp with nonce := none } d).dir := by
          rw [heq]; rfl
        rw [← h.2, hd]
        exact begin_preserves

theorem beginOp_ne_upgrade {km : KmModel} {purpose : KeyPurpose} {b : KmBlob}
    {p : OpParams} (hng : ¬ b.gen < km.curGen) :
    km.beginOp purpose b p ≠ .upgradeRequired := by
  unfold KmModel.beginOp
  rw [if_neg hng]
  split
  · simp
  · split
    · simp
    · cases purpose
      · simp
      · cases p.nonce <;> simp

/-- Evaluating `begin` when the stored blob is current: no upgrade round
happens and the directory is left untouched. -/
theorem begin_eval {km : KmModel} {purpose : KeyPurpose} {kp opp : OpParams}
    {d : Dir} {b : KmBlob} (hb : d.keymaster_key_blob = some (.blob b))
    (hng : ¬ b.gen < km.curGen) :
    begin km purpose kp opp d =
      match km.beginOp purpose b { kp with nonce := opp.nonce } with
      | .ok o => .ok o d
      | _ => .fail d := by
  have hnu : km.beginOp purpose b { kp with nonce := opp.nonce } ≠ .upgradeRequired :=
    beginOp_ne_upgrade hng
  have hget : d.get .keymaster_key_blob = some (.blob b) := hb
  unfold begin
  rw [hget]
  change (match beginLoop km purpose kp { kp with nonce := opp.nonce } d b
      (km.curGen + 1) with
    | some r => r
    | none => BeginOut.fail d) = _
  rw [beginLoop_no_upgrade hnu]

/-- The AES-256 key the software path derives from the binding id. -/
def swWrapKey (C : Crypto) (preKey : Str) : Str :=
  resizeStr (hashWithPrefix C kHashPrefix_keygen preKey) AES_KEY_BYTES

theorem decryptWithoutKeymaster_append (C : Crypto)
    (preKey nonce body mac out0 : Str)
    (hn : nonce.length = GCM_NONCE_BYTES) (hm : mac.length = GCM_MAC_BYTES) :
    decryptWithoutKeymaster C preKey (nonce ++ body ++ mac) out0 =
      (if (C.gcmCtr (swWrapKey C preKey) nonce body).length ≠ body.length then
        (false, C.gcmCtr (swWrapKey C preKey) nonce body)
      else if C.gcmTag (swWrapKey C preKey) nonce body = mac then
        (true, C.gcmCtr (swWrapKey C preKey) nonce body)
      else
        (false, C.gcmCtr (swWrapKey C preKey) nonce body)) := by
  have hlen : (nonce ++ body ++ mac).length =
      GCM_NONCE_BYTES + body.length + GCM_MAC_BYTES := by
    simp [hn, hm]; omega
  have h1 : (nonce ++ body ++ mac).take GCM_NONCE_BYTES = nonce := by
    rw [List.append_assoc]; exact List.take_left' hn
  have h2 : (nonce ++ body ++ mac).drop GCM_NONCE_BYTES = body ++ mac := by
    rw [List.append_assoc]; exact List.drop_left' hn
  have hnn : (nonce ++ body ++ mac).length - GCM_NONCE_BYTES - GCM_MAC_BYTES =
      body.length := by omega
  have h3 : (body ++ mac).take body.length = body := List.take_left body mac
  have h4 : (nonce ++ body ++ mac).drop (GCM_NONCE_BYTES + body.length) = mac :=
    List.drop_left' (by simp [hn])
  unfold decryptWithoutKeymaster
  rw [if_neg (by omega)]
  simp only [hnn, h1, h2, h3, h4]
  rfl

theorem decryptWithKeymasterKey_append (C : Crypto) (km : KmModel) (d : Dir)
    (kp : OpParams) (nonce body mac out0 : Str)
    (hn : nonce.length = GCM_NONCE_BYTES) (hm : mac.length = GCM_MAC_BYTES) :
    decryptWithKeymasterKey C km d kp (nonce ++ body ++ mac) out0 =
      (match begin km .decrypt kp { kp with nonce := some nonce } d with
      | .fail _ => (false, out0)
      | .ok op _ =>
        if C.gcmTag op.key op.nonce body = mac then
          (true, C.gcmCtr op.key op.nonce body)
        else
          (false, C.gcmCtr op.key op.nonce body)) := by
  have h1 : (nonce ++ body ++ mac).take GCM_NONCE_BYTES = nonce := by
    rw [List.append_assoc]; exact List.take_left' hn
  have h2 : (nonce ++ body ++ mac).drop GCM_NONCE_BYTES = body ++ mac := by
    rw [List.append_assoc]; exact List.drop_left' hn
  unfold decryptWithKeymasterKey
  simp only [h1, h2, dropLastN_append hm, lastN_append hm]

theorem generateKeymasterKey_inv {km : KmModel} {auth : KeyAuthentication}
    {appId : Str} {i : Nat} {b : KmBlob}
    (h : generateKeymasterKey km auth appId i = some b) :
    b.appId = appId ∧ b.keyId = i ∧ b.gen = km.curGen ∧
    ((auth.token = [] ∧ b.needsAuth = false) ∨
     (auth.token ≠ [] ∧ b.needsAuth = true ∧
      b.userId = km.tokenUser auth.token)) := by
  unfold generateKeymasterKey at h
  split at h
  · cases h
    refine ⟨rfl, rfl, rfl, .inl ⟨by assumption, rfl⟩⟩
  · split at h
    · exact absurd h (by simp)
    · cases h
      refine ⟨rfl, rfl, rfl, .inr ⟨by assumption, rfl, rfl⟩⟩

/-- The token check `begin` performs on an auth-bound key passes. -/
def authPasses (km : KmModel) (b : KmBlob) (p : OpParams) : Prop :=
  b.needsAuth = false ∨ (p.token ≠ [] ∧ km.tokenUser p.token = b.userId)

theorem beginOp_not_error_cond {km : KmModel} {b : KmBlob} {p : OpParams}
    (hauth : authPasses km b p) :
    ¬ ((b.needsAuth && (decide (p.token = []) ||
      decide (km.tokenUser p.token ≠ b.userId))) = true) := by
  simp only [Bool.and_eq_true, Bool.or_eq_true, decide_eq_true_eq]
  rintro ⟨hna, hor⟩
  rcases hauth with hf | ⟨ht, he⟩
  · rw [hf] at hna; cases hna
  · rcases hor with h1 | h2
    · exact ht h1
    · exact h2 he

theorem beginOp_encrypt_pass {km : KmModel} {b : KmBlob} {p : OpParams}
    (hng : ¬ b.gen < km.curGen) (hid : p.appId = b.appId)
    (hauth : authPasses km b p) :
    km.beginOp .encrypt b p = .ok ⟨km.keyOf b.keyId, km.nonceOf b⟩ := by
  unfold KmModel.beginOp
  rw [if_neg hng, if_neg (by simp [hid]), if_neg (beginOp_not_error_cond hauth)]

theorem beginOp_decrypt_pass {km : KmModel} {b : KmBlob} {p : OpParams}
    {n : Str} (hng : ¬ b.gen < km.curGen) (hid : p.appId = b.appId)
    (hauth : authPasses km b p) (hn : p.nonce = some n) :
    km.beginOp .decrypt b p = .ok ⟨km.keyOf b.keyId, n⟩ := by
  unfold KmModel.beginOp
  rw [if_neg hng, if_neg (by simp [hid]), if_neg (beginOp_not_error_cond hauth), hn]

/-- Inversion of a successful software-path `storeKey`. -/
theorem storeKey_sw_inv {C : Crypto} {km : KmModel} {env : Env} {rnd : Rand}
    {auth : KeyAuthentication} {k : Str} {d' : Dir}
    (hu : auth.usesKeymaster = false)
    (h : storeKey C km env rnd auth k none = some d') :
    ∃ appId ct,
      generateAppId C auth kStretch_none [] rnd.secdiscardable = some appId ∧
      encryptWithoutKeymaster C rnd appId k = some ct ∧
      d' = { version := some (.str kCurrentVersion),
             stretching := some (.str kStretch_none),
             salt := none,
             secdiscardable := some (.str rnd.secdiscardable),
             keymaster_key_blob := none,
             keymaster_key_blob_upgraded := none,
             encrypted_key := some (.str ct) } := by
  have hst : getStretching env auth = kStretch_none := by
    simp [getStretching, hu]
  have hns : stretchingNeedsSalt kStretch_none = false := by decide
  simp only [storeKey, hst, hns, hu, Bool.false_eq_true, if_false] at h
  split at h
  · exact absurd h (by simp)
  · rename_i appId heq1
    split at h
    · exact absurd h (by simp)
    · rename_i ct heq2
      refine ⟨appId, ct, heq1, heq2, ?_⟩
      simp only [Option.some.injEq] at h
      rw [← h]
      rfl

/-- Inversion of a successful keymaster-path `storeKey`: the blob is fresh
(current generation), so `begin` performs no upgrade round, and the
ciphertext has the checked `nonce ‖ body ‖ mac` shape. -/
theorem storeKey_km_inv {C : Crypto} {km : KmModel} {env : Env} {rnd : Rand}
    {auth : KeyAuthentication} {k : Str} {d' : Dir}
    (hu : auth.usesKeymaster = true)
    (h : storeKey C km env rnd auth k none = some d') :
    ∃ appId b,
      generateAppId C auth (getStretching env auth)
        (if stretchingNeedsSalt (getStretching env auth) then rnd.salt else [])
        rnd.secdiscardable = some appId ∧
      km.avail = true ∧
      generateKeymasterKey km auth appId rnd.kmKeyId = some b ∧
      (km.nonceOf b).length = GCM_NONCE_BYTES ∧
      (C.gcmTag (km.keyOf b.keyId) (km.nonceOf b)
        (C.gcmCtr (km.keyOf b.keyId) (km.nonceOf b) k)).length = GCM_MAC_BYTES ∧
      d' = { version := some (.str kCurrentVersion),
             stretching := some (.str (getStretching env auth)),
             salt := if stretchingNeedsSalt (getStretching env auth) then
               some (.str rnd.salt) else none,
             secdiscardable := some (.str rnd.secdiscardable),
             keymaster_key_blob := some (.blob b),
             keymaster_key_blob_upgraded := none,
             encrypted_key := some (.str (km.nonceOf b ++
               C.gcmCtr (km.keyOf b.keyId) (km.nonceOf b) k ++
               C.gcmTag (km.keyOf b.keyId) (km.nonceOf b)
                 (C.gcmCtr (km.keyOf b.keyId) (km.nonceOf b) k))) } := by
  simp only [storeKey, hu, if_true] at h
  split at h
  · exact absurd h (by simp)
  · rename_i appId heq1
    by_cases hav : km.avail
    · rw [hav] at h
      simp only [Bool.not_true, Bool.false_eq_true, if_false] at h
      split at h
      · exact absurd h (by simp)
      · rename_i b heq2
        obtain ⟨hbid, hbkey, hbgen, hbauth⟩ := generateKeymasterKey_inv heq2
        -- evaluate the begin inside encryptWithKeymasterKey
        have hng : ¬ b.gen < km.curGen := by omega
        have hauth : authPasses km b (⟨appId, auth.token, none⟩ : OpParams) := by
          rcases hbauth with ⟨ht, hna⟩ | ⟨ht, hna, huid⟩
          · exact .inl hna
          · exact .inr ⟨ht, huid.symm⟩
        split at h
        · exact absurd h (by simp)
        · rename_i ct d6 heq3
          unfold encryptWithKeymasterKey at heq3
          rw [begin_eval rfl hng] at heq3
          simp only [beginParams] at heq3
          rw [beginOp_encrypt_pass hng hbid.symm hauth] at heq3
          simp only at heq3
          split at heq3
          · exact absurd heq3 (by simp)
          · split at heq3
            · exact absurd heq3 (by simp)
            · rename_i hn1 hm1
              simp only [Option.some.injEq, Prod.mk.injEq] at heq3
              simp only [Option.some.injEq] at h
              refine ⟨appId, b, heq1, hav, heq2, by simpa using hn1, by simpa using hm1, ?_⟩
              rw [← h, ← heq3.2, ← heq3.1]
              cases hsb : stretchingNeedsSalt (getStretching env auth) <;>
                simp [hsb, writeF, Dir.set]
    · have hv : km.avail = false := by
        revert hav
        cases km.avail <;> simp
      rw [hv] at h
      simp at h

/-- Evaluating `retrieveKeyImpl` on a well-formed stored record. -/
theorem retrieveKeyImpl_eval (C : Crypto) (km : KmModel) (st sd ct : Str)
    (sOpt bOpt uOpt : Option Val) (auth : KeyAuthentication) (out0 : Str) :
    retrieveKeyImpl C km
      { version := some (.str kCurrentVersion), stretching := some (.str st),
        salt := sOpt, secdiscardable := some (.str sd),
        keymaster_key_blob := bOpt, keymaster_key_blob_upgraded := uOpt,
        encrypted_key := some (.str ct) } auth out0 =
      (match (if stretchingNeedsSalt st then
          (match sOpt with | some (.str s) => some s | _ => none) else some []) with
      | none => (false, out0)
      | some salt =>
        match generateAppId C auth st salt sd with
        | none => (false, out0)
        | some appId =>
          if auth.usesKeymaster then
            if !km.avail then (false, out0)
            else decryptWithKeymasterKey C km
              { version := some (.str kCurrentVersion), stretching := some (.str st),
                salt := sOpt, secdiscardable := some (.str sd),
                keymaster_key_blob := bOpt, keymaster_key_blob_upgraded := uOpt,
                encrypted_key := some (.str ct) } (beginParams auth appId) ct out0
          else decryptWithoutKeymaster C appId ct out0) := by
  unfold retrieveKeyImpl
  simp only [readStrF, Dir.get]
  rw [if_neg (by simp)]
  rfl

/-- Software-path round trip. -/
theorem roundtrip_sw {C : Crypto} {km : KmModel} {env : Env} {rnd : Rand}
    {auth : KeyAuthentication} {k : Str} {d' : Dir}
    (hu : auth.usesKeymaster = false)
    (hctr : ∀ key n m, C.gcmCtr key n (C.gcmCtr key n m) = m)
    (htag : ∀ key n m, (C.gcmTag key n m).length = GCM_MAC_BYTES)
    (hswn : rnd.swNonce.length = GCM_NONCE_BYTES)
    (h : storeKey C km env rnd auth k none = some d') :
    retrieveKey C km d' auth = some k := by
  obtain ⟨appId, ct, happ, henc, hd⟩ := storeKey_sw_inv hu h
  unfold encryptWithoutKeymaster at henc
  simp only at henc
  split at henc
  · exact absurd henc (by simp)
  · rename_i hblen
    simp only [Option.some.injEq] at henc
    simp only [not_not] at hblen
    subst hd
    subst henc
    have hns : stretchingNeedsSalt kStretch_none = false := by decide
    have hkey : resizeStr (hashWithPrefix C kHashPrefix_keygen appId) AES_KEY_BYTES =
        swWrapKey C appId := rfl
    have hdec : decryptWithoutKeymaster C appId
        (rnd.swNonce ++ C.gcmCtr (swWrapKey C appId) rnd.swNonce k ++
          resizeStr (C.gcmTag (swWrapKey C appId) rnd.swNonce
            (C.gcmCtr (swWrapKey C appId) rnd.swNonce k)) GCM_MAC_BYTES) [] = (true, k) := by
      rw [decryptWithoutKeymaster_append C appId _ _ _ _ hswn (resizeStr_length _ _)]
      rw [hctr]
      rw [if_neg (by simp [swWrapKey, hblen])]
      rw [if_pos (resizeStr_of_length (htag _ _ _)).symm]
    unfold retrieveKey
    rw [retrieveKeyImpl_eval]
    simp only [hns, Bool.false_eq_true, if_false, happ, hu, hkey, hdec]
    simp

/-- Keymaster-path round trip. -/
theorem roundtrip_km {C : Crypto} {km : KmModel} {env : Env} {rnd : Rand}
    {auth : KeyAuthentication} {k : Str} {d' : Dir}
    (hu : auth.usesKeymaster = true)
    (hctr : ∀ key n m, C.gcmCtr key n (C.gcmCtr key n m) = m)
    (h : storeKey C km env rnd auth k none = some d') :
    retrieveKey C km d' auth = some k := by
  obtain ⟨appId, b, happ, hav, hgen, hn1, hm1, hd⟩ := storeKey_km_inv hu h
  obtain ⟨hbid, hbkey, hbgen, hbauth⟩ := generateKeymasterKey_inv hgen
  have hng : ¬ b.gen < km.curGen := by omega
  have hauth : authPasses km b (⟨appId, auth.token, some (km.nonceOf b)⟩ : OpParams) := by
    rcases hbauth with ⟨ht, hna⟩ | ⟨ht, hna, huid⟩
    · exact .inl hna
    · exact .inr ⟨ht, huid.symm⟩
  subst hd
  have hdec : decryptWithKeymasterKey C km
      { version := some (.str kCurrentVersion),
        stretching := some (.str (getStretching env auth)),
        salt := if stretchingNeedsSalt (getStretching env auth) then
          some (.str rnd.salt) else none,
        secdiscardable := some (.str rnd.secdiscardable),
        keymaster_key_blob := some (.blob b),
        keymaster_key_blob_upgraded := none,
        encrypted_key := some (.str (km.nonceOf b ++
          C.gcmCtr (km.keyOf b.keyId) (km.nonceOf b) k ++
          C.gcmTag (km.keyOf b.keyId) (km.nonceOf b)
            (C.gcmCtr (km.keyOf b.keyId) (km.nonceOf b) k))) }
      (beginParams auth appId)
      (km.nonceOf b ++ C.gcmCtr (km.keyOf b.keyId) (km.nonceOf b) k ++
        C.gcmTag (km.keyOf b.keyId) (km.nonceOf b)
          (C.gcmCtr (km.keyOf b.keyId) (km.nonceOf b) k)) [] = (true, k) := by
    rw [decryptWithKeymasterKey_append C km _ _ _ _ _ _ hn1 hm1]
    rw [begin_eval rfl hng]
    simp only [beginParams]
    rw [beginOp_decrypt_pass hng hbid.symm hauth rfl]
    simp only [if_pos rfl, hctr]
    simp
  unfold retrieveKey
  rw [retrieveKeyImpl_eval]
  cases hsalt : stretchingNeedsSalt (getStretching env auth) with
  | false =>
    rw [hsalt] at happ hdec
    simp only [Bool.false_eq_true, if_false] at happ hdec
    simp only [hsalt, Bool.false_eq_true, if_false, happ, hu, if_true, hav,
      Bool.not_true, hdec]
  | true =>
    rw [hsalt] at happ hdec
    simp only [if_true] at happ hdec
    simp only [hsalt, if_true, happ, hu, hav, Bool.not_true, Bool.false_eq_true,
      if_false, hdec]

/-! ### Claim theorems -/

/-- Claim C1: for every key `k`, credential bundle `auth`, and both the
hardware-bound and non-hardware-bound configurations, if `storeKey`
succeeds then `retrieveKey` under the same credentials succeeds and
recovers `k`.  The hypotheses are functional-correctness assumptions on
the external AES-GCM primitive (the CTR body transform is an involution,
tags are 16 bytes) and on the random source (the software nonce read is
12 bytes); everything else, including all length checks, comes from the
code. -/
theorem storeKey_retrieveKey_roundtrip (C : Crypto) (km : KmModel) (env : Env)
    (rnd : Rand) (auth : KeyAuthentication) (k : Str) (d' : Dir)
    (hctr : ∀ key n m, C.gcmCtr key n (C.gcmCtr key n m) = m)
    (htag : ∀ key n m, (C.gcmTag key n m).length = GCM_MAC_BYTES)
    (hswn : rnd.swNonce.length = GCM_NONCE_BYTES)
    (h : storeKey C km env rnd auth k none = some d') :
    retrieveKey C km d' auth = some k := by
  cases hu : auth.usesKeymaster with
  | false => exact roundtrip_sw hu hctr htag hswn h
  | true => exact roundtrip_km hu hctr h

def rtSwAuth : KeyAuthentication := ⟨[], "a".toList, false⟩
def rtKmAuth : KeyAuthentication := ⟨toyToken, "pw".toList, false⟩
def rtSwDir : Dir :=
  (storeKey toyCrypto toyKm toyEnv toyRnd rtSwAuth "KEY".toList none).getD {}
def rtKmDir : Dir :=
  (storeKey toyCrypto toyKm toyEnv toyRnd rtKmAuth "KEY".toList none).getD {}

theorem storeKey_retrieveKey_roundtrip_witness :
    retrieveKey toyCrypto toyKm rtSwDir rtSwAuth = some "KEY".toList ∧
    retrieveKey toyCrypto toyKm rtKmDir rtKmAuth = some "KEY".toList :=
  ⟨storeKey_retrieveKey_roundtrip toyCrypto toyKm toyEnv toyRnd rtSwAuth
      "KEY".toList rtSwDir (fun _ _ _ => rfl)
      (fun _ _ _ => resizeStr_length _ _) (by decide) (by decide),
   storeKey_retrieveKey_roundtrip toyCrypto toyKm toyEnv toyRnd rtKmAuth
      "KEY".toList rtKmDir (fun _ _ _ => rfl)
      (fun _ _ _ => resizeStr_length _ _) (by decide) (by decide)⟩

/-- Claim C4: `destroyKey` executes all three steps unconditionally — the
overall result is the AND of the three step outcomes computed with the
state each step left behind, the final state is the one `rm -rf` leaves,
and in particular, whenever the external recursive delete succeeds the
directory is gone even if earlier steps failed. -/
theorem destroyKey_all_steps (km : KmModel) (env : Env) (w : Option Dir) :
    destroyKey km env w =
      (deleteKey km w && (runSecdiscard env w).1 &&
        (recursiveDeleteKey env (runSecdiscard env w).2).1,
       (recursiveDeleteKey env (runSecdiscard env w).2).2) ∧
    (env.rmOk = true → (destroyKey km env w).2 = none) := by
  refine ⟨rfl, fun h => ?_⟩
  simp [destroyKey, recursiveDeleteKey, h]

theorem destroyKey_all_steps_witness :
    deleteKey toyKm (some {}) = false ∧
    (destroyKey toyKm toyEnv (some {})).2 = none :=
  ⟨by decide, (destroyKey_all_steps toyKm toyEnv (some {})).2 rfl⟩

/-- Claim C5: when the stored `version` field holds any value other than
the current version string, `retrieveKey` fails, leaves the out-parameter
untouched, and does so before any cryptographic operation: the outcome is
the same for every crypto model, keymaster model, and credential bundle. -/
theorem retrieveKey_version_gate (C C' : Crypto) (km km' : KmModel) (d : Dir)
    (auth auth' : KeyAuthentication) (out0 : Str) (v : Str)
    (hv : d.version = some (.str v)) (hne : v ≠ kCurrentVersion) :
    retrieveKeyImpl C km d auth out0 = (false, out0) ∧
    retrieveKey C km d auth = none ∧
    retrieveKeyImpl C km d auth out0 = retrieveKeyImpl C' km' d auth' out0 := by
  have h1 : ∀ (C₀ : Crypto) (km₀ : KmModel) (auth₀ : KeyAuthentication)
      (o : Str), retrieveKeyImpl C₀ km₀ d auth₀ o = (false, o) := by
    intro C₀ km₀ auth₀ o
    unfold retrieveKeyImpl
    rw [show readStrF d .version = some v by simp [readStrF, Dir.get, hv]]
    simp [hne]
  refine ⟨h1 C km auth out0, ?_, (h1 C km auth out0).trans
    (h1 C' km' auth' out0).symm⟩
  simp [retrieveKey, h1 C km auth []]

def badVersionDir : Dir := { version := some (.str "2".toList) }

theorem retrieveKey_version_gate_witness :
    retrieveKey toyCrypto toyKm badVersionDir rtSwAuth = none :=
  (retrieveKey_version_gate toyCrypto toyCrypto toyKm toyKm badVersionDir
    rtSwAuth rtSwAuth [] "2".toList rfl (by decide)).2.1

/-- Claim C7: a successful `storeKey` persists the stretching
specification chosen exactly by the policy: "none" when the credential
bundle does not use the keymaster, "nopassword" when it does but the
secret is empty, and the scrypt-tagged variant carrying the configured
cost parameters otherwise. -/
theorem storeKey_stretching_policy (C : Crypto) (km : KmModel) (env : Env)
    (rnd : Rand) (auth : KeyAuthentication) (k : Str) (d' : Dir)
    (h : storeKey C km env rnd auth k none = some d') :
    d'.stretching = some (.str (
      if auth.usesKeymaster = false then kStretch_none
      else if auth.secret = [] then kStretch_nopassword
      else kStretchPrefix_scrypt ++ env.scryptParams)) := by
  cases hu : auth.usesKeymaster with
  | false =>
    obtain ⟨appId, ct, -, -, hd⟩ := storeKey_sw_inv hu h
    subst hd
    simp
  | true =>
    obtain ⟨appId, b, -, -, -, -, -, hd⟩ := storeKey_km_inv hu h
    subst hd
    simp [getStretching, hu]

theorem storeKey_stretching_policy_witness :
    rtKmDir.stretching = some (.str ("scrypt 13:3:1".toList)) :=
  (storeKey_stretching_policy toyCrypto toyKm toyEnv toyRnd rtKmAuth
    "KEY".toList rtKmDir (by decide)).trans (by decide)

/-- Claim C8: for every stretching specification that is not
"nopassword", not "none", and not prefixed by the scrypt tag,
`stretchSecret` fails with a hard error for every secret and salt — it
never falls through to the identity ("none") behaviour. -/
theorem stretchSecret_unknown_type_fails (C : Crypto) (st sec salt : Str)
    (h1 : st ≠ kStretch_nopassword) (h2 : st ≠ kStretch_none)
    (h3 : ¬ kStretchPrefix_scrypt <+: st) :
    stretchSecret C st sec salt = none := by
  have hnn : '\x00' ∉ kStretchPrefix_scrypt := by decide
  have hne : ¬ (stdEqualD kStretchPrefix_scrypt st = true) := fun hcon =>
    h3 ((stdEqualD_eq_true_iff hnn st).mp hcon)
  unfold stretchSecret
  rw [if_neg h1, if_neg h2, if_neg hne]

theorem stretchSecret_unknown_type_fails_witness :
    stretchSecret toyCrypto "bcrypt 10".toList "s".toList "t".toList = none :=
  stretchSecret_unknown_type_fails toyCrypto "bcrypt 10".toList "s".toList
    "t".toList (by decide) (by decide) (by decide)

/-- Claim C10 (refuted; bug exhibit): the claim states that the
scrypt-tag comparison only ever accesses characters inside the bounds of
the stretching string.  For the reachable input "scr" — not equal to
"nopassword" or "none", so the comparison runs — the bounds-checked
embedding of `std::equal(kStretchPrefix_scrypt.begin(), .end(),
stretching.begin())` dereferences one position past the end of the
3-character string: the out-of-bounds branch is reached. -/
theorem scryptTagComparison_oob_at_scr :
    "scr".toList ≠ kStretch_nopassword ∧ "scr".toList ≠ kStretch_none ∧
    stdEqualChecked kStretchPrefix_scrypt "scr".toList = none := by
  exact ⟨by decide, by decide, by decide⟩

theorem upgradeKey_inv {km : KmModel} {b nk : KmBlob}
    (h : km.upgradeKey b = some nk) : nk.gen = b.gen + 1 := by
  unfold KmModel.upgradeKey at h
  split at h
  · cases h; rfl
  · exact absurd h (by simp)

theorem beginOp_upgrade_lt {km : KmModel} {purpose : KeyPurpose} {b : KmBlob}
    {p : OpParams} (h : km.beginOp purpose b p = .upgradeRequired) :
    b.gen < km.curGen := by
  by_contra hng
  exact beginOp_ne_upgrade hng h

theorem beginLoop_stable (km : KmModel) (purpose : KeyPurpose)
    (kp p : OpParams) : ∀ (fuel₁ fuel₂ : Nat) (d : Dir) (b : KmBlob),
    km.curGen - b.gen < fuel₁ → km.curGen - b.gen < fuel₂ →
    beginLoop km purpose kp p d b fuel₁ = beginLoop km purpose kp p d b fuel₂ := by
  intro fuel₁
  induction fuel₁ with
  | zero => intro fuel₂ d b h1 h2; omega
  | succ n ih =>
    intro fuel₂ d b h1 h2
    cases fuel₂ with
    | zero => omega
    | succ m =>
      cases hb : km.beginOp purpose b p with
      | ok op => rw [beginLoop_no_upgrade (by simp [hb]) n,
          beginLoop_no_upgrade (by simp [hb]) m]
      | error => rw [beginLoop_no_upgrade (by simp [hb]) n,
          beginLoop_no_upgrade (by simp [hb]) m]
      | upgradeRequired =>
        have hlt : b.gen < km.curGen := beginOp_upgrade_lt hb
        unfold beginLoop
        rw [hb]
        cases hu : km.upgradeKey b with
        | none => rfl
        | some nk =>
          simp only
          have hg := upgradeKey_inv hu
          exact ih m _ nk (by omega) (by omega)

theorem beginLoop_isSome (km : KmModel) (purpose : KeyPurpose)
    (kp p : OpParams) : ∀ (fuel : Nat) (d : Dir) (b : KmBlob),
    km.curGen - b.gen < fuel →
    (beginLoop km purpose kp p d b fuel).isSome = true := by
  intro fuel
  induction fuel with
  | zero => intro d b h; omega
  | succ n ih =>
    intro d b h
    cases hb : km.beginOp purpose b p with
    | ok op => rw [beginLoop_no_upgrade (by simp [hb]) n]; rfl
    | error => rw [beginLoop_no_upgrade (by simp [hb]) n]; rfl
    | upgradeRequired =>
      have hlt : b.gen < km.curGen := beginOp_upgrade_lt hb
      unfold beginLoop
      rw [hb]
      cases hu : km.upgradeKey b with
      | none => rfl
      | some nk =>
        simp only
        have hg := upgradeKey_inv hu
        exact ih _ nk (by omega)

/-- Claim C6: the upgrade-required retry loop in `begin` terminates and is
bounded by the number of consecutive upgrade offers the hardware service
makes for the stored blob (`km.curGen - b.gen` in the model): with any
fuel beyond that bound the loop neither exhausts its fuel nor changes its
answer; and no other failure is ever retried — a response other than
"upgrade required" is returned immediately at any positive fuel. -/
theorem begin_upgrade_loop_bounded (km : KmModel) (purpose : KeyPurpose)
    (kp p : OpParams) :
    (∀ (d : Dir) (b : KmBlob) (fuel : Nat), km.curGen - b.gen < fuel →
      (beginLoop km purpose kp p d b fuel).isSome = true ∧
      beginLoop km purpose kp p d b fuel =
        beginLoop km purpose kp p d b (km.curGen - b.gen + 1)) ∧
    (∀ (d : Dir) (b : KmBlob) (fuel : Nat),
      km.beginOp purpose b p ≠ .upgradeRequired →
      beginLoop km purpose kp p d b (fuel + 1) =
        some (match km.beginOp purpose b p with
              | .ok op => .ok op d
              | _ => .fail d)) := by
  refine ⟨fun d b fuel hf => ⟨beginLoop_isSome km purpose kp p fuel d b hf, ?_⟩,
    fun d b fuel hne => beginLoop_no_upgrade hne fuel⟩
  exact beginLoop_stable km purpose kp p fuel _ d b hf (by omega)

def upToyKm : KmModel := { toyKm with curGen := 2 }

def upToyBlob : KmBlob := ⟨"app".toList, false, 0, 7, 0⟩

def upToyParams : OpParams := ⟨"app".toList, [], none⟩

theorem begin_upgrade_loop_bounded_witness :
    (beginLoop upToyKm .encrypt upToyParams upToyParams {} upToyBlob 9).isSome
      = true ∧
    beginLoop upToyKm .encrypt upToyParams upToyParams {} upToyBlob 9 =
      beginLoop upToyKm .encrypt upToyParams upToyParams {} upToyBlob
        (upToyKm.curGen - upToyBlob.gen + 1) :=
  (begin_upgrade_loop_bounded upToyKm .encrypt upToyParams upToyParams).1
    {} upToyBlob 9 (by decide)

/-- The part of a `BeginOut` visible to callers that ignore the directory. -/
def outKind : BeginOut → Option KmOp
  | .ok op _ => some op
  | .fail _ => none

theorem beginLoop_outKind (km : KmModel) (purpose : KeyPurpose)
    (kp p : OpParams) : ∀ (fuel : Nat) (d₁ d₂ : Dir) (b : KmBlob),
    Option.map outKind (beginLoop km purpose kp p d₁ b fuel) =
    Option.map outKind (beginLoop km purpose kp p d₂ b fuel) := by
  intro fuel
  induction fuel with
  | zero => intro d₁ d₂ b; rfl
  | succ n ih =>
    intro d₁ d₂ b
    unfold beginLoop
    cases hb : km.beginOp purpose b p with
    | ok op => rfl
    | error => rfl
    | upgradeRequired =>
      cases hu : km.upgradeKey b with
      | none => rfl
      | some nk =>
        simp only
        exact ih _ _ nk

theorem begin_outKind {km : KmModel} {purpose : KeyPurpose} {kp opp : OpParams}
    {d₁ d₂ : Dir} (hb : d₁.keymaster_key_blob = d₂.keymaster_key_blob) :
    outKind (begin km purpose kp opp d₁) = outKind (begin km purpose kp opp d₂) := by
  unfold begin
  rw [show d₁.get .keymaster_key_blob = d₂.get .keymaster_key_blob from hb]
  cases hv : d₂.get .keymaster_key_blob with
  | none => rfl
  | some v =>
    cases v with
    | str s => rfl
    | blob b =>
      have hmap := beginLoop_outKind km purpose kp
        { kp with nonce := opp.nonce } (km.curGen + 1) d₁ d₂ b
      change outKind (match beginLoop km purpose kp { kp with nonce := opp.nonce }
          d₁ b (km.curGen + 1) with
        | some r => r
        | none => BeginOut.fail d₁) =
        outKind (match beginLoop km purpose kp { kp with nonce := opp.nonce }
          d₂ b (km.curGen + 1) with
        | some r => r
        | none => BeginOut.fail d₂)
      cases h₁ : beginLoop km purpose kp { kp with nonce := opp.nonce } d₁ b
          (km.curGen + 1) with
      | none =>
        cases h₂ : beginLoop km purpose kp { kp with nonce := opp.nonce } d₂ b
            (km.curGen + 1) with
        | none => rfl
        | some r₂ => rw [h₁, h₂] at hmap; exact absurd hmap (by simp)
      | some r₁ =>
        cases h₂ : beginLoop km purpose kp { kp with nonce := opp.nonce } d₂ b
            (km.curGen + 1) with
        | none => rw [h₁, h₂] at hmap; exact absurd hmap (by simp)
        | some r₂ =>
          rw [h₁, h₂] at hmap
          simp only [Option.map_some', Option.some.injEq] at hmap
          exact hmap

theorem decryptWithKeymasterKey_congr (C : Crypto) (km : KmModel)
    (d₁ d₂ : Dir) (kp : OpParams) (ct out0 : Str)
    (hb : d₁.keymaster_key_blob = d₂.keymaster_key_blob) :
    decryptWithKeymasterKey C km d₁ kp ct out0 =
    decryptWithKeymasterKey C km d₂ kp ct out0 := by
  unfold decryptWithKeymasterKey
  have h := @begin_outKind km .decrypt kp
    { kp with nonce := some (ct.take GCM_NONCE_BYTES) } d₁ d₂ hb
  cases h₁ : begin km .decrypt kp
      { kp with nonce := some (ct.take GCM_NONCE_BYTES) } d₁ with
  | fail d =>
    cases h₂ : begin km .decrypt kp
        { kp with nonce := some (ct.take GCM_NONCE_BYTES) } d₂ with
    | fail d => simp only [h₁, h₂]
    | ok op d => rw [h₁, h₂] at h; exact absurd h (by simp [outKind])
  | ok op d =>
    cases h₂ : begin km .decrypt kp
        { kp with nonce := some (ct.take GCM_NONCE_BYTES) } d₂ with
    | fail d => rw [h₁, h₂] at h; exact absurd h (by simp [outKind])
    | ok op₂ d' =>
      rw [h₁, h₂] at h
      simp only [outKind, Option.some.injEq] at h
      simp only [h₁, h₂, h]

/-- Claim C9: the salt presence invariant.  (1) At store time a salt file
exists in the resulting directory iff the chosen stretching specification
needs one (i.e. is neither "nopassword" nor "none"); (2) when it does not,
the stored record is independent of the random salt bytes (no salt is
consumed, the binding id uses the empty salt); (3) at retrieve time, when
the stored stretching specification needs no salt, the outcome is
independent of the salt file (it is never read); (4) when it does need
one, a missing salt file makes retrieve fail. -/
theorem salt_presence_invariant (C : Crypto) (km : KmModel) (env : Env)
    (rnd : Rand) (auth : KeyAuthentication) (k : Str) :
    (∀ d', storeKey C km env rnd auth k none = some d' →
      (d'.salt ≠ none ↔ stretchingNeedsSalt (getStretching env auth) = true)) ∧
    (stretchingNeedsSalt (getStretching env auth) = false → ∀ s',
      storeKey C km env { rnd with salt := s' } auth k none =
      storeKey C km env rnd auth k none) ∧
    (∀ (d : Dir) (st out0 : Str) (sv : Option Val),
      d.stretching = some (.str st) → stretchingNeedsSalt st = false →
      retrieveKeyImpl C km { d with salt := sv } auth out0 =
      retrieveKeyImpl C km d auth out0) ∧
    (∀ (d : Dir) (st sd out0 : Str),
      d.version = some (.str kCurrentVersion) →
      d.secdiscardable = some (.str sd) →
      d.stretching = some (.str st) → stretchingNeedsSalt st = true →
      d.salt = none → retrieveKeyImpl C km d auth out0 = (false, out0)) := by
  refine ⟨?_, ?_, ?_, ?_⟩
  · intro d' h
    cases hu : auth.usesKeymaster with
    | false =>
      obtain ⟨appId, ct, -, -, hd⟩ := storeKey_sw_inv hu h
      subst hd
      simp [getStretching, hu]
      decide
    | true =>
      obtain ⟨appId, b, -, -, -, -, -, hd⟩ := storeKey_km_inv hu h
      subst hd
      cases hns : stretchingNeedsSalt (getStretching env auth) <;> simp [hns]
  · intro hns s'
    simp only [storeKey, hns, Bool.false_eq_true, if_false]
    rfl
  · intro d st out0 sv hst hns
    unfold retrieveKeyImpl
    have hstr1 : readStrF { d with salt := sv } .stretching = some st := by
      simp [readStrF, Dir.get, hst]
    have hstr2 : readStrF d .stretching = some st := by
      simp [readStrF, Dir.get, hst]
    have hv : readStrF { d with salt := sv } .version = readStrF d .version := rfl
    have hsd : readStrF { d with salt := sv } .secdiscardable =
      readStrF d .secdiscardable := rfl
    have henc : readStrF { d with salt := sv } .encrypted_key =
      readStrF d .encrypted_key := rfl
    simp only [hv, hsd, henc, hstr1, hstr2, hns, Bool.false_eq_true, if_false]
    simp only [decryptWithKeymasterKey_congr C km { d with salt := sv } d]
  · intro d st sd out0 hv hsd hst hns hsalt
    unfold retrieveKeyImpl
    simp only [show readStrF d .version = some kCurrentVersion from
        by simp [readStrF, Dir.get, hv],
      show readStrF d .secdiscardable = some sd from
        by simp [readStrF, Dir.get, hsd],
      show readStrF d .stretching = some st from
        by simp [readStrF, Dir.get, hst],
      show readStrF d .salt = none from by simp [readStrF, Dir.get, hsalt],
      hns, if_true]
    simp

def saltToyDir : Dir :=
  { version := some (.str kCurrentVersion),
    stretching := some (.str kStretchPrefix_scrypt),
    secdiscardable := some (.str "SD".toList) }

theorem salt_presence_invariant_witness :
    (rtKmDir.salt ≠ none ↔
      stretchingNeedsSalt (getStretching toyEnv rtKmAuth) = true) ∧
    retrieveKeyImpl toyCrypto toyKm saltToyDir rtKmAuth [] = (false, []) :=
  ⟨(salt_presence_invariant toyCrypto toyKm toyEnv toyRnd rtKmAuth
      "KEY".toList).1 rtKmDir (by decide),
   (salt_presence_invariant toyCrypto toyKm toyEnv toyRnd rtKmAuth
      "KEY".toList).2.2.2 saltToyDir kStretchPrefix_scrypt "SD".toList []
      rfl rfl rfl (by decide) rfl⟩

theorem beginOp_wrong_appId {km : KmModel} {purpose : KeyPurpose}
    {b : KmBlob} {p : OpParams} (hng : ¬ b.gen < km.curGen)
    (hid : p.appId ≠ b.appId) : km.beginOp purpose b p = .error := by
  unfold KmModel.beginOp
  rw [if_neg hng, if_pos hid]

theorem beginOp_token_missing {km : KmModel} {purpose : KeyPurpose}
    {b : KmBlob} {p : OpParams} (hng : ¬ b.gen < km.curGen)
    (hna : b.needsAuth = true) (ht : p.token = []) :
    km.beginOp purpose b p = .error := by
  unfold KmModel.beginOp
  rw [if_neg hng]
  by_cases hid : p.appId ≠ b.appId
  · rw [if_pos hid]
  · rw [if_neg hid, if_pos (by simp [hna, ht])]

/-- A keymaster-path stored record fails to retrieve whenever `begin`
rejects the operation for the credential bundle presented. -/
theorem retrieveKey_km_fail (C : Crypto) (km : KmModel)
    (st sd ct salt' : Str) (sOpt : Option Val) (b : KmBlob)
    (auth2 : KeyAuthentication)
    (hu2 : auth2.usesKeymaster = true) (hav : km.avail = true)
    (hng : ¬ b.gen < km.curGen)
    (hsalt : (if stretchingNeedsSalt st then
      (match sOpt with | some (.str s) => some s | _ => none)
      else some []) = some salt')
    (hbeg : ∀ appId2, generateAppId C auth2 st salt' sd = some appId2 →
      km.beginOp .decrypt b
        ⟨appId2, auth2.token, some (ct.take GCM_NONCE_BYTES)⟩ = .error) :
    retrieveKey C km
      { version := some (.str kCurrentVersion),
        stretching := some (.str st), salt := sOpt,
        secdiscardable := some (.str sd),
        keymaster_key_blob := some (.blob b),
        keymaster_key_blob_upgraded := none,
        encrypted_key := some (.str ct) } auth2 = none := by
  unfold retrieveKey
  rw [retrieveKeyImpl_eval, hsalt]
  cases happ2 : generateAppId C auth2 st salt' sd with
  | none => simp [happ2]
  | some appId2 =>
    have hdec : decryptWithKeymasterKey C km
        { version := some (.str kCurrentVersion),
          stretching := some (.str st), salt := sOpt,
          secdiscardable := some (.str sd),
          keymaster_key_blob := some (.blob b),
          keymaster_key_blob_upgraded := none,
          encrypted_key := some (.str ct) } (beginParams auth2 appId2) ct [] =
        (false, []) := by
      simp only [decryptWithKeymasterKey]
      rw [begin_eval rfl hng]
      simp only [beginParams]
      rw [hbeg appId2 happ2]
    simp only [happ2, hu2, if_true, hav, Bool.not_true, Bool.false_eq_true,
      if_false, hdec]

/--
Claim C2 counterexample: under "nopassword" stretching the supplied
secret is discarded with only a warning, so storing under an empty secret
with a valid hardware token and retrieving under a *different*, non-empty
secret (same token) succeeds and returns the key — the claim's highlighted
case fails on the code.
-/
def c2auth1 : KeyAuthentication := ⟨toyToken, [], false⟩

def c2auth2 : KeyAuthentication := ⟨toyToken, "x".toList, false⟩

def c2dir : Dir :=
  (storeKey toyCrypto toyKm toyEnv toyRnd c2auth1 "KEY".toList none).getD {}

/-- Claim C2 (refutation of the claim as stated): `c2auth2` differs from
`c2auth1` (different secret), storing under `c2auth1` succeeds, yet
retrieval under `c2auth2` succeeds and recovers the key instead of
failing — because the persisted "nopassword" stretching ignores the
secret. -/
theorem nopassword_ignores_secret :
    c2auth1 ≠ c2auth2 ∧
    storeKey toyCrypto toyKm toyEnv toyRnd c2auth1 "KEY".toList none =
      some c2dir ∧
    retrieveKey toyCrypto toyKm c2dir c2auth2 = some "KEY".toList :=
  ⟨by decide, by decide, by decide⟩

/-- Claim C2 (amended): storing under `auth1` on the hardware-bound path
and then retrieving under `auth2` fails when `auth2` is missing the
required token, or when the stretched secrets differ (so the binding ids
differ and the hardware service rejects the application id).  The
"nopassword" case is excluded: there the secret is discarded, as
`nopassword_ignores_secret` shows. -/
theorem wrong_credential_fails (C : Crypto) (km : KmModel) (env : Env)
    (rnd : Rand) (auth1 auth2 : KeyAuthentication) (k : Str) (d' : Dir)
    (h : storeKey C km env rnd auth1 k none = some d')
    (hu1 : auth1.usesKeymaster = true)
    (hu2 : auth2.usesKeymaster = true) :
    (auth1.token ≠ [] → auth2.token = [] →
      retrieveKey C km d' auth2 = none) ∧
    (stretchSecret C (getStretching env auth1) auth2.secret
        (if stretchingNeedsSalt (getStretching env auth1) then rnd.salt else []) ≠
      stretchSecret C (getStretching env auth1) auth1.secret
        (if stretchingNeedsSalt (getStretching env auth1) then rnd.salt else []) →
      retrieveKey C km d' auth2 = none) := by
  obtain ⟨appId, b, happ, hav, hgen, hn1, hm1, hd⟩ := storeKey_km_inv hu1 h
  obtain ⟨hbid, hbkey, hbgen, hbauth⟩ := generateKeymasterKey_inv hgen
  have hng : ¬ b.gen < km.curGen := by omega
  have hsalt : (if stretchingNeedsSalt (getStretching env auth1) then
      (match (if stretchingNeedsSalt (getStretching env auth1) then
        some (Val.str rnd.salt) else none) with
        | some (.str s) => some s | _ => none)
      else some []) = some (if stretchingNeedsSalt (getStretching env auth1)
        then rnd.salt else []) := by
    cases stretchingNeedsSalt (getStretching env auth1) <;> rfl
  subst hd
  constructor
  · intro ht1 ht2
    have hna : b.needsAuth = true := by
      rcases hbauth with ⟨ht, -⟩ | ⟨-, hna, -⟩
      · exact absurd ht ht1
      · exact hna
    exact retrieveKey_km_fail C km _ _ _ _ _ b auth2 hu2 hav hng hsalt
      (fun appId2 _ => beginOp_token_missing hng hna ht2)
  · intro hne
    apply retrieveKey_km_fail C km _ _ _ _ _ b auth2 hu2 hav hng hsalt
    intro appId2 happ2
    apply beginOp_wrong_appId hng
    unfold generateAppId at happ happ2
    cases hs1 : stretchSecret C (getStretching env auth1) auth1.secret
        (if stretchingNeedsSalt (getStretching env auth1) then rnd.salt
          else []) with
    | none => rw [hs1] at happ; exact absurd happ (by simp)
    | some st1 =>
      cases hs2 : stretchSecret C (getStretching env auth1) auth2.secret
          (if stretchingNeedsSalt (getStretching env auth1) then rnd.salt
            else []) with
      | none => rw [hs2] at happ2; exact absurd happ2 (by simp)
      | some st2 =>
        rw [hs1] at happ
        rw [hs2] at happ2
        simp only [Option.some.injEq] at happ happ2
        rw [hbid, ← happ, ← happ2]
        intro hcon
        exact hne (by rw [hs1, hs2, List.append_cancel_left hcon])

def c2missingTokenAuth : KeyAuthentication := ⟨[], "y".toList, true⟩

theorem wrong_credential_fails_witness :
    retrieveKey toyCrypto toyKm rtKmDir c2missingTokenAuth = none ∧
    retrieveKey toyCrypto toyKm rtKmDir ⟨toyToken, "pw2".toList, false⟩ = none :=
  ⟨(wrong_credential_fails toyCrypto toyKm toyEnv toyRnd rtKmAuth
      c2missingTokenAuth "KEY".toList rtKmDir (by decide) (by decide)
      (by decide)).1 (by decide) rfl,
   (wrong_credential_fails toyCrypto toyKm toyEnv toyRnd rtKmAuth
      ⟨toyToken, "pw2".toList, false⟩ "KEY".toList rtKmDir (by decide)
      (by decide) (by decide)).2 (by decide)⟩

def c3auth2 : KeyAuthentication := ⟨[], "b".toList, false⟩

/-- Claim C3 (refutation of the claim as stated): retrieving a
software-path record under a wrong secret makes the GCM tag check fail, so
`retrieveKey` reports failure — yet the caller-visible out-parameter holds
the full unauthenticated decryption of the ciphertext body (here: the
stored key itself), not "no recovered key material". -/
theorem sw_tag_failure_leaves_plaintext :
    (retrieveKeyImpl toyCrypto toyKm rtSwDir c3auth2 []).1 = false ∧
    (retrieveKeyImpl toyCrypto toyKm rtSwDir c3auth2 []).2 = "KEY".toList ∧
    "KEY".toList ≠ ([] : Str) :=
  ⟨by decide, by decide, by decide⟩

/-- Claim C3 (amended): whenever `retrieveKey` reports failure no key is
returned through the success channel (the `Option` view is `none`); but a
tag-verification failure in the software decryption path leaves the
unauthenticated CTR-decryption of the ciphertext body in the caller's
out-parameter, which callers must therefore not use. -/
theorem retrieve_failure_no_success_channel (C : Crypto) (km : KmModel)
    (d : Dir) (auth : KeyAuthentication)
    (preKey nonce body mac out0 : Str)
    (hn : nonce.length = GCM_NONCE_BYTES)
    (hm : mac.length = GCM_MAC_BYTES) :
    ((retrieveKeyImpl C km d auth []).1 = false →
      retrieveKey C km d auth = none) ∧
    ((C.gcmCtr (swWrapKey C preKey) nonce body).length = body.length →
      C.gcmTag (swWrapKey C preKey) nonce body ≠ mac →
      decryptWithoutKeymaster C preKey (nonce ++ body ++ mac) out0 =
        (false, C.gcmCtr (swWrapKey C preKey) nonce body)) := by
  constructor
  · intro hf
    simp [retrieveKey, hf]
  · intro hlen hne
    rw [decryptWithoutKeymaster_append C preKey nonce body mac out0 hn hm]
    rw [if_neg (by simp [hlen]), if_neg hne]

theorem retrieve_failure_no_success_channel_witness :
    retrieveKey toyCrypto toyKm rtSwDir c3auth2 = none ∧
    decryptWithoutKeymaster toyCrypto "P".toList
      (List.replicate 12 'N' ++ "B".toList ++ List.replicate 16 'M') [] =
      (false, toyCrypto.gcmCtr (swWrapKey toyCrypto "P".toList)
        (List.replicate 12 'N') "B".toList) :=
  ⟨(retrieve_failure_no_success_channel toyCrypto toyKm rtSwDir c3auth2
      "P".toList (List.replicate 12 'N') "B".toList (List.replicate 16 'M')
      [] (by decide) (by decide)).1 (by decide),
   (retrieve_failure_no_success_channel toyCrypto toyKm rtSwDir c3auth2
      "P".toList (List.replicate 12 'N') "B".toList (List.replicate 16 'M')
      [] (by decide) (by decide)).2 (by decide) (by decide)⟩

end KeyStorageModel
